import Mathlib

/-!
Shallow embedding of the `go-apprun` runner (source `src/apprun/run.go`).

The source holds three variants of the runner:
* variant A — `package apprun`, `Run[AT app, CT any](...) int` (first section);
* variant B — `package runner`, `New` / `Runner.Run` with the optional
  auxiliary HTTP server (second section);
* variant C — `package apprun`, `Run[AT App, CT any](...)` returning nothing
  and calling `os.Exit(1)` on failure (third section).

External collaborators (`cfgloader`, `zerolog`) are opaque per the spec:
a config file parses to an "apply overrides" function on the user config
value, the env overlay likewise; log records are events in a trace.
Machine effects (`time.Local = time.UTC`, `signal.Notify`, goroutine
launches, `app.Run`, `srv.Shutdown`) are recorded as trace events in the
order the main path performs them.
-/

namespace GoAppRun

/-- Log level selected from `APP_DEBUG` (zerolog.InfoLevel / DebugLevel). -/
inductive LogLevel where
  | info
  | debug
  deriving DecidableEq, Repr

/-- Events of the runner main path, in program order. -/
inductive Ev where
  /-- `time.Local = time.UTC` -/
  | setLocalUTC
  /-- debug record "config file loaded" with the path -/
  | cfgFileLoaded (path : String)
  /-- error record "config file load failed" with the attempted path -/
  | cfgFileLoadFailed (path : String)
  /-- error record "load config from env vars failed" -/
  | cfgEnvLoadFailed
  /-- `signal.Notify(sig, SIGINT, SIGTERM)` -/
  | armSignal
  /-- error record "app init failed" (factory returned an error) -/
  | appInitFailed
  /-- `go func() { ... ListenAndServe() ... }()` launched -/
  | serverStartLaunched
  /-- `app.Run(ctx)` invoked -/
  | appRunCall
  /-- error record "app run failed" -/
  | appRunFailed
  /-- `srv.Shutdown(context.Background())` invoked -/
  | serverShutdownCall
  /-- error record "http server shutdown failed" -/
  | serverShutdownFailed
  deriving DecidableEq, Repr

/-- Whether an event belongs to the configuration-resolution phase. -/
def Ev.isCfgEv : Ev → Bool
  | .cfgFileLoaded _ => true
  | .cfgFileLoadFailed _ => true
  | .cfgEnvLoadFailed => true
  | _ => false

/-- Outcome of `cfgloader.LoadFromPath(path, &cfg, nil)` at a given path:
the file is absent (`os.ErrNotExist`), the load fails otherwise, or it
succeeds and overlays fields onto the config value. -/
inductive FileLoad (CT : Type) where
  | notExist
  | loadError
  | ok (apply : CT → CT)

/-- Outcome of `cfgloader.LoadFromEnv(pfx, &cfg)` for a given prefix. -/
inductive EnvLoad (CT : Type) where
  | err
  | ok (apply : CT → CT)

/-- The configuration-relevant environment of a run: file contents by path,
`APP_CONFIG_PATH`, and the env-overlay loader by prefix string. -/
structure CfgEnv (CT : Type) where
  files : String → FileLoad CT
  appConfigPath : String
  envLoad : String → EnvLoad CT

/-- `if dbg == "true" || dbg == "1" { ll = zerolog.DebugLevel }`. -/
def debugLevelOf (dbg : String) : LogLevel :=
  if dbg = "true" ∨ dbg = "1" then .debug else .info

/-- Inner loop `for _, ext := range []string{".yaml", ".json"}`. -/
def extPaths (base : String) : List String :=
  [base ++ ".yaml", base ++ ".json"]

/-- Outer loop `for _, base := range []string{"config", appName}`:
the convention-based paths, in the order the code tries them. -/
def convPaths (appName : String) : List String :=
  extPaths "config" ++ extPaths appName

/-- The convention-based file loop (variant A lines 59-70, variant B lines
252-263): a missing file is skipped, any other failure logs the path and
aborts, a successful load overlays the file and logs at debug level. -/
def loadConvFiles {CT : Type} (files : String → FileLoad CT) :
    List String → CT → List Ev → Except (List Ev) (CT × List Ev)
  | [], cfg, tr => .ok (cfg, tr)
  | p :: rest, cfg, tr =>
    match files p with
    | .notExist => loadConvFiles files rest cfg tr
    | .loadError => .error (tr ++ [.cfgFileLoadFailed p])
    | .ok apply => loadConvFiles files rest (apply cfg) (tr ++ [.cfgFileLoaded p])

/-- The `APP_CONFIG_PATH` step (variant A lines 72-79, variant B lines
265-272): skipped when the variable is empty; otherwise any failure of the
load — including a missing file — logs the path and aborts. -/
def loadExplicit {CT : Type} (files : String → FileLoad CT) (cfgPath : String)
    (cfg : CT) (tr : List Ev) : Except (List Ev) (CT × List Ev) :=
  if cfgPath = "" then .ok (cfg, tr)
  else
    match files cfgPath with
    | .ok apply => .ok (apply cfg, tr ++ [.cfgFileLoaded cfgPath])
    | _ => .error (tr ++ [.cfgFileLoadFailed cfgPath])

/-- The env-overlay step `cfgloader.LoadFromEnv(pfx, &cfg)` (variant A
line 81, variant B line 274, variant C line 380). -/
def loadEnvStep {CT : Type} (envLoad : String → EnvLoad CT) (pfx : String)
    (cfg : CT) (tr : List Ev) : Except (List Ev) (CT × List Ev) :=
  match envLoad pfx with
  | .err => .error (tr ++ [.cfgEnvLoadFailed])
  | .ok apply => .ok (apply cfg, tr)

/-- Full configuration resolution of variants A and B: convention-based
files, then the explicit path, then the env overlay with prefix `pfx`. -/
def resolveConfig {CT : Type} (ce : CfgEnv CT) (appName pfx : String)
    (cfg : CT) (tr : List Ev) : Except (List Ev) (CT × List Ev) :=
  match loadConvFiles ce.files (convPaths appName) cfg tr with
  | .error tr' => .error tr'
  | .ok (cfg1, tr1) =>
    match loadExplicit ce.files ce.appConfigPath cfg1 tr1 with
    | .error tr' => .error tr'
    | .ok (cfg2, tr2) => loadEnvStep ce.envLoad pfx cfg2 tr2

/-- `Config[CT]` of variant A (the log writer is an opaque sink and is not
modelled). -/
structure AConfig (CT : Type) where
  appName : String
  appVer : String
  logLevel : LogLevel
  app : CT

/-- Environment and collaborators of variant A `Run` (lines 31-118):
`APP_DEBUG`, the name/version arguments and their env fallbacks, the
configuration sources, the application factory and the application's run
method (its result: `none` = nil error). -/
structure AEnv (CT AT : Type) where
  appDebug : String
  appNameArg : String
  appNameEnvVar : String
  appVerArg : String
  appVerEnvVar : String
  ce : CfgEnv CT
  fct : AConfig CT → Except String AT
  appRun : AT → Option String

/-- `appName` as variant A computes it (lines 48-50). -/
def AEnv.name {CT AT : Type} (e : AEnv CT AT) : String :=
  if e.appNameArg = "" then e.appNameEnvVar else e.appNameArg

/-- `appVer` as variant A computes it (lines 52-54). -/
def AEnv.ver {CT AT : Type} (e : AEnv CT AT) : String :=
  if e.appVerArg = "" then e.appVerEnvVar else e.appVerArg

/-- Variant A `Run` (lines 31-118): sets `time.Local = time.UTC`, selects
the log level, resolves the config (prefix `"APP"`), arms the signal
listener, invokes the factory, then the application's run method; returns
the exit code and the main-path event trace. -/
def apprunRun {CT AT : Type} (e : AEnv CT AT) (appCfg : CT) : Int × List Ev :=
  let ll := debugLevelOf e.appDebug
  match resolveConfig e.ce e.name "APP" appCfg [.setLocalUTC] with
  | .error tr => (1, tr)
  | .ok (cfg, tr) =>
    let tr := tr ++ [.armSignal]
    match e.fct { appName := e.name, appVer := e.ver, logLevel := ll, app := cfg } with
    | .error _ => (1, tr ++ [.appInitFailed])
    | .ok a =>
      match e.appRun a with
      | some _ => (1, tr ++ [.appRunCall, .appRunFailed])
      | none => (0, tr ++ [.appRunCall])

/-! ## Variant B: `package runner`, `New` / `Runner.Run` -/

/-- What `ListenAndServe` eventually returns inside the server goroutine
(variant B lines 298-305): `http.ErrServerClosed` after a normal close, or
another (bind/serve) error. `ListenAndServe` never returns a nil error. -/
inductive ServeOutcome where
  | closed
  | serveErr
  deriving DecidableEq, Repr

/-- Severity of a log record emitted by the server goroutine. -/
inductive LogRec where
  | info (msg : String)
  | error (msg : String)
  deriving DecidableEq, Repr

/-- The body of the server goroutine (variant B lines 298-305): the record
it emits once `ListenAndServe` returns. -/
def serveGoroutineLog : ServeOutcome → LogRec
  | .closed => .info "http server closed"
  | .serveErr => .error "http server serve failed"

/-- Environment and collaborators of variant B `Runner.Run` (lines
251-321): the package-level `appName`, the configuration sources, the
factory (the `*Runtime` argument is opaque and omitted), the application's
run method, whether `r.srv != nil`, what the server goroutine's
`ListenAndServe` call eventually returns, and whether `Shutdown` fails. -/
structure BEnv (CT AT : Type) where
  appName : String
  ce : CfgEnv CT
  fct : CT → Except String AT
  appRun : AT → Option String
  srvConfigured : Bool
  serveOutcome : ServeOutcome
  shutdownFails : Bool

/-- Variant B `Runner.Run` (lines 251-321): resolves the config (prefix
`"APP"`), arms the signal listener, invokes the factory (fatal), launches
the server goroutine when `r.srv != nil`, invokes the application's run
method (fatal, and on failure `Shutdown` is not reached), then shuts the
server down and returns 0. The serve outcome is consumed only by the
concurrent goroutine (`serveGoroutineLog`), never by this main path. -/
def runnerRun {CT AT : Type} (e : BEnv CT AT) (cfg0 : CT) : Int × List Ev :=
  match resolveConfig e.ce e.appName "APP" cfg0 [] with
  | .error tr => (1, tr)
  | .ok (cfg, tr) =>
    let tr := tr ++ [.armSignal]
    match e.fct cfg with
    | .error _ => (1, tr ++ [.appInitFailed])
    | .ok a =>
      let tr := tr ++ (if e.srvConfigured then [.serverStartLaunched] else []) ++ [.appRunCall]
      match e.appRun a with
      | some _ => (1, tr ++ [.appRunFailed])
      | none =>
        if e.srvConfigured then
          (0, tr ++ [.serverShutdownCall] ++
            (if e.shutdownFails then [.serverShutdownFailed] else []))
        else
          (0, tr)

/-- Environment of variant B `New` (lines 171-208). -/
structure NewEnv where
  appDebug : String
  appNameGlobal : String
  appNameEnvVar : String
  appVerGlobal : String
  appVerEnvVar : String
  terminal : Bool

/-- The part of the `Runner` state `New` determines (log writers and the
logger itself are opaque sinks). -/
structure RunnerState where
  appName : String
  appVer : String
  logLevel : LogLevel
  deriving DecidableEq, Repr

/-- Variant B `New` (lines 171-208): sets `time.Local = time.UTC` first,
selects the log level from `APP_DEBUG`, fills the package-level name and
version from the environment when unset, and builds the runner state.
Returns the state and the effect trace of the call. -/
def runnerNew (e : NewEnv) : RunnerState × List Ev :=
  ({ appName := if e.appNameGlobal = "" then e.appNameEnvVar else e.appNameGlobal
   , appVer := if e.appVerGlobal = "" then e.appVerEnvVar else e.appVerGlobal
   , logLevel := debugLevelOf e.appDebug }, [.setLocalUTC])

/-! ## Variant C: `package apprun`, `Run` with `os.Exit(1)` -/

/-- Variant C lines 378-379: the env prefix derived from the app name,
`strings.ReplaceAll(appName, "-", "_")` followed by
`strings.ReplaceAll(.., ".", "_")`; for single-character patterns
`ReplaceAll` is exactly a per-character map. -/
def appEnvCfgName (appName : String) : String :=
  String.mk (appName.data.map fun c => if c = '-' ∨ c = '.' then '_' else c)

/-- Environment and collaborators of variant C `Run` (lines 356-401): the
package-level `appName` (default `"app"`), `APP_DEBUG`, the configuration
sources (no convention-based files in this variant), the infallible
factory and the application's run method. -/
structure CEnv (CT AT : Type) where
  appDebug : String
  appName : String
  ce : CfgEnv CT
  fct : CT → AT
  appRun : AT → Option String

/-- Variant C `Run` (lines 356-401): sets `time.Local = time.UTC`, loads
the explicit-path file and the env overlay with the derived prefix
(`os.Exit(1)` on failure, modelled as exit code 1), arms the signal
listener, then invokes the application's run method. -/
def apprun2Run {CT AT : Type} (e : CEnv CT AT) (cfg0 : CT) : Int × List Ev :=
  match loadExplicit e.ce.files e.ce.appConfigPath cfg0 [.setLocalUTC] with
  | .error tr => (1, tr)
  | .ok (cfg1, tr1) =>
    match loadEnvStep e.ce.envLoad (appEnvCfgName e.appName) cfg1 tr1 with
    | .error tr => (1, tr)
    | .ok (cfg2, tr2) =>
      let tr := tr2 ++ [.armSignal, .appRunCall]
      match e.appRun (e.fct cfg2) with
      | some _ => (1, tr ++ [.appRunFailed])
      | none => (0, tr)

/-! ## Concrete configuration values

The Go code is generic over the user's configuration type `CT`; for
concrete scenarios we instantiate `CT` with a field → integer map, and a
source's "apply overrides" function with a field-level overwrite of the
pairs the source sets. -/

/-- A configuration value: an association list of fields. -/
abbrev Cfg := List (String × Int)

/-- Look a field up. -/
def Cfg.get : Cfg → String → Option Int
  | [], _ => none
  | (k', v) :: rest, k => if k' = k then some v else Cfg.get rest k

/-- Overwrite one field. -/
def Cfg.set : Cfg → String → Int → Cfg
  | [], k, v => [(k, v)]
  | (k', v') :: rest, k, v =>
    if k' = k then (k, v) :: rest else (k', v') :: Cfg.set rest k v

/-- Overlay a source's pairs onto a configuration value, one field-level
overwrite per pair. -/
def applyOverlay (c : Cfg) (pairs : List (String × Int)) : Cfg :=
  pairs.foldl (fun acc kv => acc.set kv.1 kv.2) c

/-! ## Signal listener and cancellation: small-step model

Variants A and B create a cancellable context, call `signal.Notify` on a
buffered channel of size 1 (arming), start the listener goroutine, and only
then invoke the factory and the application's run method. The model below
is the post-resolution portion: the main path's program counter, the
channel, the listener and the context's cancelled flag. -/

/-- Program counter of the main path after configuration resolution. -/
inductive MainPC where
  /-- before `signal.Notify` -/
  | start
  /-- `signal.Notify` done, listener goroutine started, factory running -/
  | armed
  /-- inside `app.Run(ctx)` -/
  | running
  /-- `app.Run(ctx)` returned -/
  | done
  deriving DecidableEq, Repr

/-- Joint state of the main path, the signal channel (buffer 1), the
listener goroutine and the cancellable context. -/
structure SigState where
  pc : MainPC
  sigPending : Bool
  listenerFired : Bool
  cancelled : Bool
  deriving DecidableEq, Repr

/-- Initial state: nothing armed, nothing pending, context active. -/
def SigState.init : SigState :=
  { pc := .start, sigPending := false, listenerFired := false, cancelled := false }

/-- One step of the system: the main path advances in program order; a
SIGINT/SIGTERM delivered after arming lands in the channel; the listener
goroutine receives once and calls `ctxC()`. No transition clears
`cancelled`. -/
inductive SigStep : SigState → SigState → Prop where
  /-- `signal.Notify` then `go func() {...}` — arming. -/
  | arm (s : SigState) : s.pc = .start → SigStep s { s with pc := .armed }
  /-- the main path invokes `app.Run(ctx)`. -/
  | invokeRun (s : SigState) : s.pc = .armed → SigStep s { s with pc := .running }
  /-- `app.Run(ctx)` returns. -/
  | finishRun (s : SigState) : s.pc = .running → SigStep s { s with pc := .done }
  /-- a termination signal is delivered after arming and buffered. -/
  | signalArrive (s : SigState) : s.pc ≠ .start → s.sigPending = false →
      SigStep s { s with sigPending := true }
  /-- the listener receives from the channel and cancels the context. -/
  | listenerRecv (s : SigState) : s.sigPending = true → s.listenerFired = false →
      SigStep s { s with sigPending := false, listenerFired := true, cancelled := true }

/-- Reachability from the initial state. -/
def SigReach (s : SigState) : Prop :=
  Relation.ReflTransGen SigStep SigState.init s

/-! ## Specification-side view of configuration resolution

For the refinement claim about source order, the spec's words — "applying
the sources as successive field-level overwrites in the fixed order ...
with a later source overwriting fields set by an earlier one" — are
rendered as a left fold over the list of present sources. -/

/-- Apply overlays left to right, a later one overwriting an earlier one. -/
def applyAll {CT : Type} (cfg : CT) (l : List (CT → CT)) : CT :=
  l.foldl (fun c a => a c) cfg

/-- The present sources, in the claim's fixed order: `config.yaml`,
`config.json`, `{appName}.yaml`, `{appName}.json`, the explicit-path file,
the environment overlay. -/
def specSources {CT : Type} (ce : CfgEnv CT) (appName pfx : String) :
    List (CT → CT) :=
  ((convPaths appName).filterMap fun p =>
    match ce.files p with
    | .ok a => some a
    | _ => none) ++
  (if ce.appConfigPath = "" then []
   else
     match ce.files ce.appConfigPath with
     | .ok a => [a]
     | _ => []) ++
  (match ce.envLoad pfx with
   | .ok a => [a]
   | _ => [])

/-- The file-only part of the resolution (convention-based files, then the
explicit-path file), before the env overlay. -/
def resolveFiles {CT : Type} (ce : CfgEnv CT) (appName : String) (cfg : CT)
    (tr : List Ev) : Except (List Ev) (CT × List Ev) :=
  match loadConvFiles ce.files (convPaths appName) cfg tr with
  | .error tr' => .error tr'
  | .ok (c1, t1) => loadExplicit ce.files ce.appConfigPath c1 t1

/-! ## Concrete environments used at concrete inputs -/

/-- The claim's scenario: base `{timeout: 30}`, a `config.yaml` containing
`{timeout: 60}`, environment overlay (prefix `APP`, i.e. `APP_TIMEOUT`)
setting `{timeout: 90}`; no other source present. -/
def ceScenario : CfgEnv Cfg :=
  { files := fun p =>
      if p = "config.yaml" then .ok (fun c => applyOverlay c [("timeout", 60)])
      else .notExist
  , appConfigPath := ""
  , envLoad := fun pfx =>
      if pfx = "APP" then .ok (fun c => applyOverlay c [("timeout", 90)]) else .err }

/-- Variant B environment: config resolution and the factory succeed, the
auxiliary server is configured, and the application's run method fails. -/
def eC1 : BEnv Cfg Unit :=
  { appName := "demo"
  , ce := { files := fun _ => .notExist, appConfigPath := "", envLoad := fun _ => .ok id }
  , fct := fun _ => .ok ()
  , appRun := fun _ => some "boom"
  , srvConfigured := true
  , serveOutcome := .closed
  , shutdownFails := false }

/-- Variant A environment with app name `my-app` whose env loader fails
for the fixed prefix `"APP"` and succeeds for every other prefix — in
particular for the name-derived `my_app`. -/
def eC2 : AEnv Cfg Unit :=
  { appDebug := ""
  , appNameArg := "my-app"
  , appNameEnvVar := ""
  , appVerArg := ""
  , appVerEnvVar := ""
  , ce := { files := fun _ => .notExist
          , appConfigPath := ""
          , envLoad := fun pfx => if pfx = "APP" then .err else .ok id }
  , fct := fun _ => .ok ()
  , appRun := fun _ => none }

/-- An env loader failing at every prefix. -/
def fEnvErrAll : String → EnvLoad Cfg := fun _ => .err

/-- An env loader failing exactly at the fixed prefix `"APP"`. -/
def gEnvErrAPP : String → EnvLoad Cfg := fun p => if p = "APP" then .err else .ok id

/-- Variant B environment in which the whole pipeline succeeds and a
server is configured. -/
def eC9 : BEnv Cfg Unit :=
  { appName := "demo"
  , ce := { files := fun _ => .notExist, appConfigPath := "", envLoad := fun _ => .ok id }
  , fct := fun _ => .ok ()
  , appRun := fun _ => none
  , srvConfigured := true
  , serveOutcome := .closed
  , shutdownFails := false }

/-- Variant A environment in which the whole pipeline succeeds. -/
def eC9a : AEnv Cfg Unit :=
  { appDebug := ""
  , appNameArg := "demo"
  , appNameEnvVar := ""
  , appVerArg := ""
  , appVerEnvVar := ""
  , ce := { files := fun _ => .notExist, appConfigPath := "", envLoad := fun _ => .ok id }
  , fct := fun _ => .ok ()
  , appRun := fun _ => none }

/-- Variant A environment whose `config.yaml` exists but fails to load. -/
def eC5 : AEnv Cfg Unit :=
  { appDebug := ""
  , appNameArg := "demo"
  , appNameEnvVar := ""
  , appVerArg := ""
  , appVerEnvVar := ""
  , ce := { files := fun p => if p = "config.yaml" then .loadError else .notExist
          , appConfigPath := ""
          , envLoad := fun _ => .ok id }
  , fct := fun _ => .ok ()
  , appRun := fun _ => none }

/-- Variant A environment whose `APP_CONFIG_PATH` names a non-existent
file while no convention-based file load fails. -/
def eC6 : AEnv Cfg Unit :=
  { appDebug := ""
  , appNameArg := "demo"
  , appNameEnvVar := ""
  , appVerArg := ""
  , appVerEnvVar := ""
  , ce := { files := fun _ => .notExist
          , appConfigPath := "explicit.yaml"
          , envLoad := fun _ => .ok id }
  , fct := fun _ => .ok ()
  , appRun := fun _ => none }

/-- Variant B environment whose factory fails, with a server configured. -/
def eC7 : BEnv Cfg Unit :=
  { appName := "demo"
  , ce := { files := fun _ => .notExist, appConfigPath := "", envLoad := fun _ => .ok id }
  , fct := fun _ => .error "boom"
  , appRun := fun _ => none
  , srvConfigured := true
  , serveOutcome := .closed
  , shutdownFails := false }

/-! ## Helper lemmas -/

theorem loadConvFiles_trace {CT : Type} (files : String → FileLoad CT) :
    ∀ (paths : List String) (cfg : CT) (tr : List Ev),
      (∀ c tr', loadConvFiles files paths cfg tr = .ok (c, tr') →
        ∃ ex, tr' = tr ++ ex ∧ ∀ v ∈ ex, v.isCfgEv = true) ∧
      (∀ tr', loadConvFiles files paths cfg tr = .error tr' →
        ∃ ex, tr' = tr ++ ex ∧ ∀ v ∈ ex, v.isCfgEv = true) := by
  intro paths
  induction paths with
  | nil =>
    intro cfg tr
    constructor
    · intro c tr' h
      simp only [loadConvFiles, Except.ok.injEq, Prod.mk.injEq] at h
      exact ⟨[], by simp [h.2], by simp⟩
    · intro tr' h
      simp [loadConvFiles] at h
  | cons p rest ih =>
    intro cfg tr
    constructor
    · intro c tr' h
      simp only [loadConvFiles] at h
      cases hf : files p with
      | notExist =>
        rw [hf] at h
        exact (ih cfg tr).1 c tr' h
      | loadError =>
        rw [hf] at h
        simp at h
      | ok apply =>
        rw [hf] at h
        obtain ⟨ex, hex, hall⟩ := (ih (apply cfg) (tr ++ [.cfgFileLoaded p])).1 c tr' h
        refine ⟨.cfgFileLoaded p :: ex, by simp [hex], ?_⟩
        intro v hv
        rcases List.mem_cons.mp hv with hv | hv
        · simp [hv, Ev.isCfgEv]
        · exact hall v hv
    · intro tr' h
      simp only [loadConvFiles] at h
      cases hf : files p with
      | notExist =>
        rw [hf] at h
        exact (ih cfg tr).2 tr' h
      | loadError =>
        rw [hf] at h
        simp only [Except.error.injEq] at h
        exact ⟨[.cfgFileLoadFailed p], by simp [← h], by simp [Ev.isCfgEv]⟩
      | ok apply =>
        rw [hf] at h
        obtain ⟨ex, hex, hall⟩ := (ih (apply cfg) (tr ++ [.cfgFileLoaded p])).2 tr' h
        refine ⟨.cfgFileLoaded p :: ex, by simp [hex], ?_⟩
        intro v hv
        rcases List.mem_cons.mp hv with hv | hv
        · simp [hv, Ev.isCfgEv]
        · exact hall v hv

theorem loadExplicit_trace {CT : Type} (files : String → FileLoad CT)
    (cfgPath : String) (cfg : CT) (tr : List Ev) :
    (∀ c tr', loadExplicit files cfgPath cfg tr = .ok (c, tr') →
      ∃ ex, tr' = tr ++ ex ∧ ∀ v ∈ ex, v.isCfgEv = true) ∧
    (∀ tr', loadExplicit files cfgPath cfg tr = .error tr' →
      ∃ ex, tr' = tr ++ ex ∧ ∀ v ∈ ex, v.isCfgEv = true) := by
  constructor
  · intro c tr' h
    simp only [loadExplicit] at h
    by_cases hp : cfgPath = ""
    · rw [hp, if_pos rfl] at h
      simp only [Except.ok.injEq, Prod.mk.injEq] at h
      exact ⟨[], by simp [h.2], by simp⟩
    · rw [if_neg hp] at h
      cases hf : files cfgPath with
      | notExist => rw [hf] at h; simp at h
      | loadError => rw [hf] at h; simp at h
      | ok apply =>
        rw [hf] at h
        simp only [Except.ok.injEq, Prod.mk.injEq] at h
        exact ⟨[.cfgFileLoaded cfgPath], by simp [← h.2], by simp [Ev.isCfgEv]⟩
  · intro tr' h
    simp only [loadExplicit] at h
    by_cases hp : cfgPath = ""
    · rw [hp, if_pos rfl] at h
      simp at h
    · rw [if_neg hp] at h
      cases hf : files cfgPath with
      | notExist =>
        rw [hf] at h
        simp only [Except.error.injEq] at h
        exact ⟨[.cfgFileLoadFailed cfgPath], by simp [← h], by simp [Ev.isCfgEv]⟩
      | loadError =>
        rw [hf] at h
        simp only [Except.error.injEq] at h
        exact ⟨[.cfgFileLoadFailed cfgPath], by simp [← h], by simp [Ev.isCfgEv]⟩
      | ok apply => rw [hf] at h; simp at h

theorem loadEnvStep_trace {CT : Type} (envLoad : String → EnvLoad CT)
    (pfx : String) (cfg : CT) (tr : List Ev) :
    (∀ c tr', loadEnvStep envLoad pfx cfg tr = .ok (c, tr') →
      ∃ ex, tr' = tr ++ ex ∧ ∀ v ∈ ex, v.isCfgEv = true) ∧
    (∀ tr', loadEnvStep envLoad pfx cfg tr = .error tr' →
      ∃ ex, tr' = tr ++ ex ∧ ∀ v ∈ ex, v.isCfgEv = true) := by
  constructor
  · intro c tr' h
    simp only [loadEnvStep] at h
    cases he : envLoad pfx with
    | err => rw [he] at h; simp at h
    | ok apply =>
      rw [he] at h
      simp only [Except.ok.injEq, Prod.mk.injEq] at h
      exact ⟨[], by simp [h.2], by simp⟩
  · intro tr' h
    simp only [loadEnvStep] at h
    cases he : envLoad pfx with
    | err =>
      rw [he] at h
      simp only [Except.error.injEq] at h
      exact ⟨[.cfgEnvLoadFailed], by simp [← h], by simp [Ev.isCfgEv]⟩
    | ok apply => rw [he] at h; simp at h

theorem resolveConfig_trace {CT : Type} (ce : CfgEnv CT) (appName pfx : String)
    (cfg : CT) (tr : List Ev) :
    (∀ c tr', resolveConfig ce appName pfx cfg tr = .ok (c, tr') →
      ∃ ex, tr' = tr ++ ex ∧ ∀ v ∈ ex, v.isCfgEv = true) ∧
    (∀ tr', resolveConfig ce appName pfx cfg tr = .error tr' →
      ∃ ex, tr' = tr ++ ex ∧ ∀ v ∈ ex, v.isCfgEv = true) := by
  constructor
  · intro c tr' h
    simp only [resolveConfig] at h
    cases h1 : loadConvFiles ce.files (convPaths appName) cfg tr with
    | error t => rw [h1] at h; simp at h
    | ok p1 =>
      obtain ⟨c1, t1⟩ := p1
      rw [h1] at h
      obtain ⟨ex1, hex1, hall1⟩ := (loadConvFiles_trace ce.files (convPaths appName) cfg tr).1 c1 t1 h1
      simp only at h
      cases h2 : loadExplicit ce.files ce.appConfigPath c1 t1 with
      | error t => rw [h2] at h; simp at h
      | ok p2 =>
        obtain ⟨c2, t2⟩ := p2
        rw [h2] at h
        obtain ⟨ex2, hex2, hall2⟩ := (loadExplicit_trace ce.files ce.appConfigPath c1 t1).1 c2 t2 h2
        obtain ⟨ex3, hex3, hall3⟩ := (loadEnvStep_trace ce.envLoad pfx c2 t2).1 c tr' h
        refine ⟨ex1 ++ ex2 ++ ex3, ?_, ?_⟩
        · simp [hex3, hex2, hex1]
        · intro v hv
          simp only [List.mem_append] at hv
          rcases hv with (hv | hv) | hv
          · exact hall1 v hv
          · exact hall2 v hv
          · exact hall3 v hv
  · intro tr' h
    simp only [resolveConfig] at h
    cases h1 : loadConvFiles ce.files (convPaths appName) cfg tr with
    | error t =>
      rw [h1] at h
      simp only [Except.error.injEq] at h
      obtain ⟨ex1, hex1, hall1⟩ := (loadConvFiles_trace ce.files (convPaths appName) cfg tr).2 t h1
      exact ⟨ex1, by simp [← h, hex1], hall1⟩
    | ok p1 =>
      obtain ⟨c1, t1⟩ := p1
      rw [h1] at h
      obtain ⟨ex1, hex1, hall1⟩ := (loadConvFiles_trace ce.files (convPaths appName) cfg tr).1 c1 t1 h1
      simp only at h
      cases h2 : loadExplicit ce.files ce.appConfigPath c1 t1 with
      | error t =>
        rw [h2] at h
        simp only [Except.error.injEq] at h
        obtain ⟨ex2, hex2, hall2⟩ := (loadExplicit_trace ce.files ce.appConfigPath c1 t1).2 t h2
        refine ⟨ex1 ++ ex2, by simp [← h, hex2, hex1], ?_⟩
        intro v hv
        rcases List.mem_append.mp hv with hv | hv
        · exact hall1 v hv
        · exact hall2 v hv
      | ok p2 =>
        obtain ⟨c2, t2⟩ := p2
        rw [h2] at h
        obtain ⟨ex2, hex2, hall2⟩ := (loadExplicit_trace ce.files ce.appConfigPath c1 t1).1 c2 t2 h2
        obtain ⟨ex3, hex3, hall3⟩ := (loadEnvStep_trace ce.envLoad pfx c2 t2).2 tr' h
        refine ⟨ex1 ++ ex2 ++ ex3, by simp [hex3, hex2, hex1], ?_⟩
        intro v hv
        simp only [List.mem_append] at hv
        rcases hv with (hv | hv) | hv
        · exact hall1 v hv
        · exact hall2 v hv
        · exact hall3 v hv

theorem loadConvFiles_ok_val {CT : Type} (files : String → FileLoad CT) :
    ∀ (paths : List String) (cfg c : CT) (tr tr' : List Ev),
      loadConvFiles files paths cfg tr = .ok (c, tr') →
      c = applyAll cfg (paths.filterMap fun p =>
        match files p with
        | .ok a => some a
        | _ => none) := by
  intro paths
  induction paths with
  | nil =>
    intro cfg c tr tr' h
    simp only [loadConvFiles, Except.ok.injEq, Prod.mk.injEq] at h
    simp [applyAll, ← h.1]
  | cons p rest ih =>
    intro cfg c tr tr' h
    simp only [loadConvFiles] at h
    cases hf : files p with
    | notExist =>
      rw [hf] at h
      simpa [List.filterMap_cons, hf] using ih cfg c tr tr' h
    | loadError => rw [hf] at h; simp at h
    | ok apply =>
      rw [hf] at h
      simpa [List.filterMap_cons, hf, applyAll] using ih (apply cfg) c _ tr' h

theorem loadExplicit_ok_val {CT : Type} (files : String → FileLoad CT)
    (cfgPath : String) (cfg c : CT) (tr tr' : List Ev)
    (h : loadExplicit files cfgPath cfg tr = .ok (c, tr')) :
    c = applyAll cfg
      (if cfgPath = "" then []
       else
         match files cfgPath with
         | .ok a => [a]
         | _ => []) := by
  simp only [loadExplicit] at h
  by_cases hp : cfgPath = ""
  · rw [hp, if_pos rfl] at h
    simp only [Except.ok.injEq, Prod.mk.injEq] at h
    simp [hp, applyAll, ← h.1]
  · rw [if_neg hp] at h
    cases hf : files cfgPath with
    | notExist => rw [hf] at h; simp at h
    | loadError => rw [hf] at h; simp at h
    | ok apply =>
      rw [hf] at h
      simp only [Except.ok.injEq, Prod.mk.injEq] at h
      simp [hp, hf, applyAll, ← h.1]

theorem loadEnvStep_ok_val {CT : Type} (envLoad : String → EnvLoad CT)
    (pfx : String) (cfg c : CT) (tr tr' : List Ev)
    (h : loadEnvStep envLoad pfx cfg tr = .ok (c, tr')) :
    c = applyAll cfg
      (match envLoad pfx with
       | .ok a => [a]
       | _ => []) := by
  simp only [loadEnvStep] at h
  cases he : envLoad pfx with
  | err => rw [he] at h; simp at h
  | ok apply =>
    rw [he] at h
    simp only [Except.ok.injEq, Prod.mk.injEq] at h
    simp [applyAll, ← h.1]

theorem loadConvFiles_first_error {CT : Type} (files : String → FileLoad CT) :
    ∀ (l₁ : List String) (p : String) (l₂ : List String) (cfg : CT) (tr : List Ev),
      (∀ q ∈ l₁, files q ≠ .loadError) → files p = .loadError →
      ∃ tr', loadConvFiles files (l₁ ++ p :: l₂) cfg tr = .error tr' ∧
        tr'.getLast? = some (.cfgFileLoadFailed p) := by
  intro l₁
  induction l₁ with
  | nil =>
    intro p l₂ cfg tr _ hp
    refine ⟨tr ++ [.cfgFileLoadFailed p], ?_, by simp⟩
    simp [loadConvFiles, hp]
  | cons q rest ih =>
    intro p l₂ cfg tr hq hp
    have hq0 : files q ≠ .loadError := hq q (by simp)
    have hrest : ∀ r ∈ rest, files r ≠ .loadError := fun r hr => hq r (by simp [hr])
    cases hf : files q with
    | notExist =>
      obtain ⟨tr', h1, h2⟩ := ih p l₂ cfg tr hrest hp
      refine ⟨tr', ?_, h2⟩
      rw [List.cons_append]
      simpa [loadConvFiles, hf] using h1
    | loadError => exact absurd hf hq0
    | ok apply =>
      obtain ⟨tr', h1, h2⟩ := ih p l₂ (apply cfg) (tr ++ [.cfgFileLoaded q]) hrest hp
      refine ⟨tr', ?_, h2⟩
      rw [List.cons_append]
      simpa [loadConvFiles, hf] using h1

theorem loadConvFiles_allOk {CT : Type} (files : String → FileLoad CT) :
    ∀ (paths : List String) (cfg : CT) (tr : List Ev),
      (∀ q ∈ paths, files q ≠ .loadError) →
      ∃ c tr', loadConvFiles files paths cfg tr = .ok (c, tr') := by
  intro paths
  induction paths with
  | nil => intro cfg tr _; exact ⟨cfg, tr, rfl⟩
  | cons p rest ih =>
    intro cfg tr hq
    cases hf : files p with
    | notExist =>
      obtain ⟨c, tr', h⟩ := ih cfg tr (fun r hr => hq r (by simp [hr]))
      refine ⟨c, tr', ?_⟩
      simpa [loadConvFiles, hf] using h
    | loadError => exact absurd hf (hq p (by simp))
    | ok apply =>
      obtain ⟨c, tr', h⟩ := ih (apply cfg) (tr ++ [.cfgFileLoaded p]) (fun r hr => hq r (by simp [hr]))
      refine ⟨c, tr', ?_⟩
      simpa [loadConvFiles, hf] using h

theorem sigReach_fired_cancelled {s : SigState} (h : SigReach s) :
    s.listenerFired = true → s.cancelled = true := by
  induction h with
  | refl => intro hf; simp [SigState.init] at hf
  | tail hsteps hstep ih =>
    intro hf
    cases hstep with
    | arm h1 => exact ih (by simpa using hf)
    | invokeRun h1 => exact ih (by simpa using hf)
    | finishRun h1 => exact ih (by simpa using hf)
    | signalArrive h1 h2 => exact ih (by simpa using hf)
    | listenerRecv h1 h2 => rfl

/-! ### Per-branch evaluation equations for the three run functions -/

theorem apprunRun_resolve_error {CT AT : Type} (e : AEnv CT AT) (cfg0 : CT)
    (tr : List Ev)
    (h : resolveConfig e.ce e.name "APP" cfg0 [.setLocalUTC] = .error tr) :
    apprunRun e cfg0 = (1, tr) := by
  simp [apprunRun, h]

theorem apprunRun_factory_error {CT AT : Type} (e : AEnv CT AT) (cfg0 : CT)
    (c : CT) (tr : List Ev) (msg : String)
    (hres : resolveConfig e.ce e.name "APP" cfg0 [.setLocalUTC] = .ok (c, tr))
    (hf : e.fct { appName := e.name, appVer := e.ver,
                  logLevel := debugLevelOf e.appDebug, app := c } = .error msg) :
    apprunRun e cfg0 = (1, tr ++ [.armSignal] ++ [.appInitFailed]) := by
  simp [apprunRun, hres, hf]

theorem apprunRun_run_error {CT AT : Type} (e : AEnv CT AT) (cfg0 : CT)
    (c : CT) (tr : List Ev) (a : AT) (msg : String)
    (hres : resolveConfig e.ce e.name "APP" cfg0 [.setLocalUTC] = .ok (c, tr))
    (hf : e.fct { appName := e.name, appVer := e.ver,
                  logLevel := debugLevelOf e.appDebug, app := c } = .ok a)
    (hr : e.appRun a = some msg) :
    apprunRun e cfg0 = (1, tr ++ [.armSignal] ++ [.appRunCall, .appRunFailed]) := by
  simp [apprunRun, hres, hf, hr]

theorem apprunRun_run_ok {CT AT : Type} (e : AEnv CT AT) (cfg0 : CT)
    (c : CT) (tr : List Ev) (a : AT)
    (hres : resolveConfig e.ce e.name "APP" cfg0 [.setLocalUTC] = .ok (c, tr))
    (hf : e.fct { appName := e.name, appVer := e.ver,
                  logLevel := debugLevelOf e.appDebug, app := c } = .ok a)
    (hr : e.appRun a = none) :
    apprunRun e cfg0 = (0, tr ++ [.armSignal] ++ [.appRunCall]) := by
  simp [apprunRun, hres, hf, hr]

theorem runnerRun_resolve_error {CT AT : Type} (e : BEnv CT AT) (cfg0 : CT)
    (tr : List Ev)
    (h : resolveConfig e.ce e.appName "APP" cfg0 [] = .error tr) :
    runnerRun e cfg0 = (1, tr) := by
  simp [runnerRun, h]

theorem runnerRun_factory_error {CT AT : Type} (e : BEnv CT AT) (cfg0 : CT)
    (c : CT) (tr : List Ev) (msg : String)
    (hres : resolveConfig e.ce e.appName "APP" cfg0 [] = .ok (c, tr))
    (hf : e.fct c = .error msg) :
    runnerRun e cfg0 = (1, tr ++ [.armSignal] ++ [.appInitFailed]) := by
  simp [runnerRun, hres, hf]

theorem runnerRun_run_error {CT AT : Type} (e : BEnv CT AT) (cfg0 : CT)
    (c : CT) (tr : List Ev) (a : AT) (msg : String)
    (hres : resolveConfig e.ce e.appName "APP" cfg0 [] = .ok (c, tr))
    (hf : e.fct c = .ok a)
    (hr : e.appRun a = some msg) :
    runnerRun e cfg0 = (1, tr ++ [.armSignal] ++
      (if e.srvConfigured then [.serverStartLaunched] else []) ++
      [.appRunCall] ++ [.appRunFailed]) := by
  simp [runnerRun, hres, hf, hr]

theorem runnerRun_run_ok {CT AT : Type} (e : BEnv CT AT) (cfg0 : CT)
    (c : CT) (tr : List Ev) (a : AT)
    (hres : resolveConfig e.ce e.appName "APP" cfg0 [] = .ok (c, tr))
    (hf : e.fct c = .ok a)
    (hr : e.appRun a = none) :
    runnerRun e cfg0 =
      (0, tr ++ [.armSignal] ++
        (if e.srvConfigured then [.serverStartLaunched] else []) ++
        [.appRunCall] ++
        (if e.srvConfigured then
          [.serverShutdownCall] ++
            (if e.shutdownFails then [.serverShutdownFailed] else [])
         else [])) := by
  cases hs : e.srvConfigured with
  | false => simp [runnerRun, hres, hf, hr, hs]
  | true => cases hsd : e.shutdownFails with
    | false => simp [runnerRun, hres, hf, hr, hs, hsd]
    | true => simp [runnerRun, hres, hf, hr, hs, hsd]

theorem apprun2Run_explicit_error {CT AT : Type} (e : CEnv CT AT) (cfg0 : CT)
    (tr : List Ev)
    (h : loadExplicit e.ce.files e.ce.appConfigPath cfg0 [.setLocalUTC] = .error tr) :
    apprun2Run e cfg0 = (1, tr) := by
  simp [apprun2Run, h]

theorem apprun2Run_env_error {CT AT : Type} (e : CEnv CT AT) (cfg0 : CT)
    (c1 : CT) (tr1 tr : List Ev)
    (h1 : loadExplicit e.ce.files e.ce.appConfigPath cfg0 [.setLocalUTC] = .ok (c1, tr1))
    (h2 : loadEnvStep e.ce.envLoad (appEnvCfgName e.appName) c1 tr1 = .error tr) :
    apprun2Run e cfg0 = (1, tr) := by
  simp [apprun2Run, h1, h2]

theorem apprun2Run_run_error {CT AT : Type} (e : CEnv CT AT) (cfg0 : CT)
    (c1 c2 : CT) (tr1 tr2 : List Ev) (msg : String)
    (h1 : loadExplicit e.ce.files e.ce.appConfigPath cfg0 [.setLocalUTC] = .ok (c1, tr1))
    (h2 : loadEnvStep e.ce.envLoad (appEnvCfgName e.appName) c1 tr1 = .ok (c2, tr2))
    (hr : e.appRun (e.fct c2) = some msg) :
    apprun2Run e cfg0 = (1, tr2 ++ [.armSignal, .appRunCall] ++ [.appRunFailed]) := by
  simp [apprun2Run, h1, h2, hr]

theorem apprun2Run_run_ok {CT AT : Type} (e : CEnv CT AT) (cfg0 : CT)
    (c1 c2 : CT) (tr1 tr2 : List Ev)
    (h1 : loadExplicit e.ce.files e.ce.appConfigPath cfg0 [.setLocalUTC] = .ok (c1, tr1))
    (h2 : loadEnvStep e.ce.envLoad (appEnvCfgName e.appName) c1 tr1 = .ok (c2, tr2))
    (hr : e.appRun (e.fct c2) = none) :
    apprun2Run e cfg0 = (0, tr2 ++ [.armSignal, .appRunCall]) := by
  simp [apprun2Run, h1, h2, hr]

/-! ## Claims -/

/-- Claim C3: `Run` returns exit code 0 exactly when configuration
resolution, application construction and application execution all
succeed, and 1 as soon as one of them fails; 0 and 1 are the only exit
codes and nothing distinguishes the failure kind (variant A; variant C
likewise, where construction is infallible and `os.Exit(1)` is the only
failing exit). -/
theorem exitCodeZeroOrOne {CT AT CT' AT' : Type}
    (e : AEnv CT AT) (cfg0 : CT) (e' : CEnv CT' AT') (cfg0' : CT') :
    ((apprunRun e cfg0).1 = 0 ∨ (apprunRun e cfg0).1 = 1) ∧
    ((apprunRun e cfg0).1 = 0 ↔
      ∃ c tr a,
        resolveConfig e.ce e.name "APP" cfg0 [.setLocalUTC] = .ok (c, tr) ∧
        e.fct { appName := e.name, appVer := e.ver,
                logLevel := debugLevelOf e.appDebug, app := c } = .ok a ∧
        e.appRun a = none) ∧
    ((apprun2Run e' cfg0').1 = 0 ∨ (apprun2Run e' cfg0').1 = 1) ∧
    ((apprun2Run e' cfg0').1 = 0 ↔
      ∃ c1 tr1 c2 tr2,
        loadExplicit e'.ce.files e'.ce.appConfigPath cfg0' [.setLocalUTC] = .ok (c1, tr1) ∧
        loadEnvStep e'.ce.envLoad (appEnvCfgName e'.appName) c1 tr1 = .ok (c2, tr2) ∧
        e'.appRun (e'.fct c2) = none) := by
  have h1 : (apprunRun e cfg0).1 = 0 ∨ (apprunRun e cfg0).1 = 1 := by
    cases hres : resolveConfig e.ce e.name "APP" cfg0 [.setLocalUTC] with
    | error tr => rw [apprunRun_resolve_error e cfg0 tr hres]; right; rfl
    | ok p =>
      obtain ⟨c, tr⟩ := p
      cases hf : e.fct (AConfig.mk e.name e.ver (debugLevelOf e.appDebug) c) with
      | error m => rw [apprunRun_factory_error e cfg0 c tr m hres hf]; right; rfl
      | ok a =>
        cases hr : e.appRun a with
        | some m => rw [apprunRun_run_error e cfg0 c tr a m hres hf hr]; right; rfl
        | none => rw [apprunRun_run_ok e cfg0 c tr a hres hf hr]; left; rfl
  have h2 : (apprunRun e cfg0).1 = 0 ↔
      ∃ c tr a,
        resolveConfig e.ce e.name "APP" cfg0 [.setLocalUTC] = .ok (c, tr) ∧
        e.fct { appName := e.name, appVer := e.ver,
                logLevel := debugLevelOf e.appDebug, app := c } = .ok a ∧
        e.appRun a = none := by
    constructor
    · intro h0
      cases hres : resolveConfig e.ce e.name "APP" cfg0 [.setLocalUTC] with
      | error tr => rw [apprunRun_resolve_error e cfg0 tr hres] at h0; simp at h0
      | ok p =>
        obtain ⟨c, tr⟩ := p
        cases hf : e.fct (AConfig.mk e.name e.ver (debugLevelOf e.appDebug) c) with
        | error m => rw [apprunRun_factory_error e cfg0 c tr m hres hf] at h0; simp at h0
        | ok a =>
          cases hr : e.appRun a with
          | some m => rw [apprunRun_run_error e cfg0 c tr a m hres hf hr] at h0; simp at h0
          | none => exact ⟨c, tr, a, rfl, hf, hr⟩
    · rintro ⟨c, tr, a, hres, hf, hr⟩
      rw [apprunRun_run_ok e cfg0 c tr a hres hf hr]
  have h3 : (apprun2Run e' cfg0').1 = 0 ∨ (apprun2Run e' cfg0').1 = 1 := by
    cases h1' : loadExplicit e'.ce.files e'.ce.appConfigPath cfg0' [.setLocalUTC] with
    | error tr => rw [apprun2Run_explicit_error e' cfg0' tr h1']; right; rfl
    | ok p1 =>
      obtain ⟨c1, tr1⟩ := p1
      cases h2' : loadEnvStep e'.ce.envLoad (appEnvCfgName e'.appName) c1 tr1 with
      | error tr => rw [apprun2Run_env_error e' cfg0' c1 tr1 tr h1' h2']; right; rfl
      | ok p2 =>
        obtain ⟨c2, tr2⟩ := p2
        cases hr : e'.appRun (e'.fct c2) with
        | some m => rw [apprun2Run_run_error e' cfg0' c1 c2 tr1 tr2 m h1' h2' hr]; right; rfl
        | none => rw [apprun2Run_run_ok e' cfg0' c1 c2 tr1 tr2 h1' h2' hr]; left; rfl
  have h4 : (apprun2Run e' cfg0').1 = 0 ↔
      ∃ c1 tr1 c2 tr2,
        loadExplicit e'.ce.files e'.ce.appConfigPath cfg0' [.setLocalUTC] = .ok (c1, tr1) ∧
        loadEnvStep e'.ce.envLoad (appEnvCfgName e'.appName) c1 tr1 = .ok (c2, tr2) ∧
        e'.appRun (e'.fct c2) = none := by
    constructor
    · intro h0
      cases h1' : loadExplicit e'.ce.files e'.ce.appConfigPath cfg0' [.setLocalUTC] with
      | error tr => rw [apprun2Run_explicit_error e' cfg0' tr h1'] at h0; simp at h0
      | ok p1 =>
        obtain ⟨c1, tr1⟩ := p1
        cases h2' : loadEnvStep e'.ce.envLoad (appEnvCfgName e'.appName) c1 tr1 with
        | error tr => rw [apprun2Run_env_error e' cfg0' c1 tr1 tr h1' h2'] at h0; simp at h0
        | ok p2 =>
          obtain ⟨c2, tr2⟩ := p2
          cases hr : e'.appRun (e'.fct c2) with
          | some m =>
            rw [apprun2Run_run_error e' cfg0' c1 c2 tr1 tr2 m h1' h2' hr] at h0; simp at h0
          | none => exact ⟨c1, tr1, c2, tr2, rfl, h2', hr⟩
    · rintro ⟨c1, tr1, c2, tr2, h1', h2', hr⟩
      rw [apprun2Run_run_ok e' cfg0' c1 c2 tr1 tr2 h1' h2' hr]
  exact ⟨h1, h2, h3, h4⟩

/-- Claim C10: every runner entry point — variant A `Run` (line 32),
variant B `New` (line 172), variant C `Run` (line 357) — performs the
process-wide assignment `time.Local = time.UTC` as its first effect. -/
theorem setsLocalUTCFirst {CT AT CT' AT' : Type}
    (e : AEnv CT AT) (cfg0 : CT) (ne : NewEnv) (e' : CEnv CT' AT') (cfg0' : CT') :
    (apprunRun e cfg0).2.head? = some Ev.setLocalUTC ∧
    (runnerNew ne).2.head? = some Ev.setLocalUTC ∧
    (apprun2Run e' cfg0').2.head? = some Ev.setLocalUTC := by
  refine ⟨?_, rfl, ?_⟩
  · cases hres : resolveConfig e.ce e.name "APP" cfg0 [.setLocalUTC] with
    | error tr =>
      obtain ⟨ex, hex, -⟩ :=
        (resolveConfig_trace e.ce e.name "APP" cfg0 [.setLocalUTC]).2 tr hres
      rw [apprunRun_resolve_error e cfg0 tr hres, hex]; rfl
    | ok p =>
      obtain ⟨c, tr⟩ := p
      obtain ⟨ex, hex, -⟩ :=
        (resolveConfig_trace e.ce e.name "APP" cfg0 [.setLocalUTC]).1 c tr hres
      cases hf : e.fct (AConfig.mk e.name e.ver (debugLevelOf e.appDebug) c) with
      | error m => rw [apprunRun_factory_error e cfg0 c tr m hres hf, hex]; rfl
      | ok a =>
        cases hr : e.appRun a with
        | some m => rw [apprunRun_run_error e cfg0 c tr a m hres hf hr, hex]; rfl
        | none => rw [apprunRun_run_ok e cfg0 c tr a hres hf hr, hex]; rfl
  · cases h1' : loadExplicit e'.ce.files e'.ce.appConfigPath cfg0' [.setLocalUTC] with
    | error tr =>
      obtain ⟨ex, hex, -⟩ :=
        (loadExplicit_trace e'.ce.files e'.ce.appConfigPath cfg0' [.setLocalUTC]).2 tr h1'
      rw [apprun2Run_explicit_error e' cfg0' tr h1', hex]; rfl
    | ok p1 =>
      obtain ⟨c1, tr1⟩ := p1
      obtain ⟨ex1, hex1, -⟩ :=
        (loadExplicit_trace e'.ce.files e'.ce.appConfigPath cfg0' [.setLocalUTC]).1 c1 tr1 h1'
      cases h2' : loadEnvStep e'.ce.envLoad (appEnvCfgName e'.appName) c1 tr1 with
      | error tr =>
        obtain ⟨ex2, hex2, -⟩ :=
          (loadEnvStep_trace e'.ce.envLoad (appEnvCfgName e'.appName) c1 tr1).2 tr h2'
        rw [apprun2Run_env_error e' cfg0' c1 tr1 tr h1' h2', hex2, hex1]; rfl
      | ok p2 =>
        obtain ⟨c2, tr2⟩ := p2
        obtain ⟨ex2, hex2, -⟩ :=
          (loadEnvStep_trace e'.ce.envLoad (appEnvCfgName e'.appName) c1 tr1).1 c2 tr2 h2'
        cases hr : e'.appRun (e'.fct c2) with
        | some m =>
          rw [apprun2Run_run_error e' cfg0' c1 c2 tr1 tr2 m h1' h2' hr, hex2, hex1]; rfl
        | none => rw [apprun2Run_run_ok e' cfg0' c1 c2 tr1 tr2 h1' h2' hr, hex2, hex1]; rfl

/-- Claim C5: in the convention-based file loop, an absent file is not an
error and resolution proceeds to the next source, while any other load
failure of a convention-based file — here the first non-skipped one —
makes variant A `Run` return 1 immediately after logging the attempted
path (the trace ends with that error record). -/
theorem convFileMissingSkippedOtherFatal {CT AT : Type} (e : AEnv CT AT) (cfg0 : CT)
    (files' : String → FileLoad CT) (p' : String) (rest : List String)
    (cfgx : CT) (trx : List Ev)
    (l₁ : List String) (p : String) (l₂ : List String)
    (hskip : files' p' = .notExist)
    (hsplit : convPaths e.name = l₁ ++ p :: l₂)
    (hok : ∀ q ∈ l₁, e.ce.files q ≠ .loadError)
    (hbad : e.ce.files p = .loadError) :
    loadConvFiles files' (p' :: rest) cfgx trx = loadConvFiles files' rest cfgx trx ∧
    (apprunRun e cfg0).1 = 1 ∧
    (apprunRun e cfg0).2.getLast? = some (.cfgFileLoadFailed p) := by
  refine ⟨by simp [loadConvFiles, hskip], ?_⟩
  obtain ⟨tr', h1, h2⟩ :=
    loadConvFiles_first_error e.ce.files l₁ p l₂ cfg0 [.setLocalUTC] hok hbad
  have hres : resolveConfig e.ce e.name "APP" cfg0 [.setLocalUTC] = .error tr' := by
    rw [resolveConfig, hsplit, h1]
  rw [apprunRun_resolve_error e cfg0 tr' hres]
  exact ⟨rfl, h2⟩

/-- Claim C6: when `APP_CONFIG_PATH` is set and non-empty but the file it
names does not exist, variant A `Run` fails with exit code 1 (assuming the
convention-based steps did not already abort), logging the attempted
path: the explicitly named file is required to exist. -/
theorem explicitPathMustExist {CT AT : Type} (e : AEnv CT AT) (cfg0 : CT)
    (hpath : e.ce.appConfigPath ≠ "")
    (hmiss : e.ce.files e.ce.appConfigPath = .notExist)
    (hconv : ∀ q ∈ convPaths e.name, e.ce.files q ≠ .loadError) :
    (apprunRun e cfg0).1 = 1 ∧
    (apprunRun e cfg0).2.getLast? = some (.cfgFileLoadFailed e.ce.appConfigPath) := by
  obtain ⟨c1, tr1, h1⟩ := loadConvFiles_allOk e.ce.files (convPaths e.name) cfg0 [.setLocalUTC] hconv
  have h2 : loadExplicit e.ce.files e.ce.appConfigPath c1 tr1 =
      .error (tr1 ++ [.cfgFileLoadFailed e.ce.appConfigPath]) := by
    rw [loadExplicit, if_neg hpath, hmiss]
  have hres : resolveConfig e.ce e.name "APP" cfg0 [.setLocalUTC] =
      .error (tr1 ++ [.cfgFileLoadFailed e.ce.appConfigPath]) := by
    simp [resolveConfig, h1, h2]
  rw [apprunRun_resolve_error e cfg0 _ hres]
  exact ⟨rfl, by simp⟩

/-- Claim C7: when the factory returns an error, variant B `Runner.Run`
returns exit code 1 and the auxiliary server goroutine is never launched,
whether or not a server is configured. -/
theorem factoryErrorNoServerStart {CT AT : Type} (e : BEnv CT AT) (cfg0 : CT)
    (c : CT) (tr : List Ev) (msg : String)
    (hres : resolveConfig e.ce e.appName "APP" cfg0 [] = .ok (c, tr))
    (hf : e.fct c = .error msg) :
    (runnerRun e cfg0).1 = 1 ∧
    Ev.serverStartLaunched ∉ (runnerRun e cfg0).2 := by
  rw [runnerRun_factory_error e cfg0 c tr msg hres hf]
  refine ⟨rfl, ?_⟩
  obtain ⟨ex, hex, hall⟩ := (resolveConfig_trace e.ce e.appName "APP" cfg0 []).1 c tr hres
  intro hmem
  simp only [List.mem_append, List.mem_singleton] at hmem
  rcases hmem with (hmem | hmem) | hmem
  · rw [hex, List.nil_append] at hmem
    exact absurd (hall _ hmem) (by simp [Ev.isCfgEv])
  · simp at hmem
  · simp at hmem

/-- Claim C8: the outcome of the auxiliary listener's `ListenAndServe` is
consumed only inside the server goroutine — the whole main-path result,
in particular the exit code, is the same for every serve outcome, and
whenever the server was launched the application's run method is still
invoked; the goroutine reports a normal close (`http.ErrServerClosed`) at
informational severity and any other serve failure at error severity. -/
theorem auxServeFailureNonFatal {CT AT : Type} (e : BEnv CT AT) (cfg0 : CT)
    (o o' : ServeOutcome) :
    runnerRun { e with serveOutcome := o } cfg0 =
      runnerRun { e with serveOutcome := o' } cfg0 ∧
    (Ev.serverStartLaunched ∈ (runnerRun e cfg0).2 →
      Ev.appRunCall ∈ (runnerRun e cfg0).2) ∧
    serveGoroutineLog .closed = .info "http server closed" ∧
    serveGoroutineLog .serveErr = .error "http server serve failed" := by
  refine ⟨rfl, ?_, rfl, rfl⟩
  intro hmem
  cases hres : resolveConfig e.ce e.appName "APP" cfg0 [] with
  | error tr =>
    rw [runnerRun_resolve_error e cfg0 tr hres] at hmem
    obtain ⟨ex, hex, hall⟩ := (resolveConfig_trace e.ce e.appName "APP" cfg0 []).2 tr hres
    rw [hex, List.nil_append] at hmem
    exact absurd (hall _ hmem) (by simp [Ev.isCfgEv])
  | ok p =>
    obtain ⟨c, tr⟩ := p
    obtain ⟨ex, hex, hall⟩ := (resolveConfig_trace e.ce e.appName "APP" cfg0 []).1 c tr hres
    cases hf : e.fct c with
    | error m =>
      rw [runnerRun_factory_error e cfg0 c tr m hres hf] at hmem
      simp only [List.mem_append, List.mem_singleton] at hmem
      rcases hmem with (hmem | hmem) | hmem
      · rw [hex, List.nil_append] at hmem
        exact absurd (hall _ hmem) (by simp [Ev.isCfgEv])
      · simp at hmem
      · simp at hmem
    | ok a =>
      cases hr : e.appRun a with
      | some m =>
        rw [runnerRun_run_error e cfg0 c tr a m hres hf hr]
        simp
      | none =>
        rw [runnerRun_run_ok e cfg0 c tr a hres hf hr]
        simp

/-- Claim C4: whenever resolution succeeds, the resolved configuration
equals applying the present sources as successive overwrites in the fixed
order `config.yaml`, `config.json`, `{appName}.yaml`, `{appName}.json`,
explicit-path file, environment overlay, a later source overwriting an
earlier one. -/
theorem resolutionIsFoldOfSources {CT : Type} (ce : CfgEnv CT) (appName pfx : String)
    (cfg c : CT) (tr tr' : List Ev)
    (h : resolveConfig ce appName pfx cfg tr = .ok (c, tr')) :
    c = applyAll cfg (specSources ce appName pfx) := by
  simp only [resolveConfig] at h
  cases h1 : loadConvFiles ce.files (convPaths appName) cfg tr with
  | error t => rw [h1] at h; simp at h
  | ok p1 =>
    obtain ⟨c1, t1⟩ := p1
    rw [h1] at h
    simp only at h
    cases h2 : loadExplicit ce.files ce.appConfigPath c1 t1 with
    | error t => rw [h2] at h; simp at h
    | ok p2 =>
      obtain ⟨c2, t2⟩ := p2
      rw [h2] at h
      have e1 := loadConvFiles_ok_val ce.files (convPaths appName) cfg c1 tr t1 h1
      have e2 := loadExplicit_ok_val ce.files ce.appConfigPath c1 c2 t1 t2 h2
      have e3 := loadEnvStep_ok_val ce.envLoad pfx c2 c t2 tr' h
      simp only [specSources]
      rw [e3, e2, e1]
      simp [applyAll, List.foldl_append]

theorem resolutionIsFoldOfSources_witness :
    applyAll [("timeout", (30 : Int))] (specSources ceScenario "app" "APP") =
      [("timeout", (90 : Int))] ∧
    Cfg.get [("timeout", (90 : Int))] "timeout" = some 90 :=
  ⟨(resolutionIsFoldOfSources ceScenario "app" "APP" [("timeout", 30)]
      [("timeout", 90)] [] [Ev.cfgFileLoaded "config.yaml"] rfl).symm,
   rfl⟩

/-- Claim C1 counterexample: in this run the auxiliary server was started
and the application's run method returned an error, and the server's
`Shutdown` is never invoked — variant B `Runner.Run` returns 1 before
reaching the shutdown block. -/
theorem shutdownSkippedOnRunError_cex :
    Ev.serverStartLaunched ∈ (runnerRun eC1 []).2 ∧
    Ev.appRunFailed ∈ (runnerRun eC1 []).2 ∧
    (runnerRun eC1 []).1 = 1 ∧
    Ev.serverShutdownCall ∉ (runnerRun eC1 []).2 := by decide

/-- Claim C1 (amended): for every run in which the auxiliary server was
started, when the application's run method returns success, `Shutdown` is
invoked exactly once, after the run-method invocation; when the run method
returns an error, `Run` returns 1 without invoking `Shutdown`. -/
theorem shutdownExactlyOnceOnSuccess {CT AT : Type} (e : BEnv CT AT) (cfg0 : CT)
    (c : CT) (tr : List Ev) (a : AT)
    (hres : resolveConfig e.ce e.appName "APP" cfg0 [] = .ok (c, tr))
    (hf : e.fct c = .ok a)
    (hsrv : e.srvConfigured = true) :
    (e.appRun a = none →
      ∃ l₁ l₂, (runnerRun e cfg0).2 = l₁ ++ Ev.serverShutdownCall :: l₂ ∧
        Ev.serverShutdownCall ∉ l₁ ∧ Ev.serverShutdownCall ∉ l₂ ∧
        Ev.appRunCall ∈ l₁) ∧
    (∀ msg, e.appRun a = some msg →
      (runnerRun e cfg0).1 = 1 ∧
      Ev.serverShutdownCall ∉ (runnerRun e cfg0).2) := by
  obtain ⟨ex, hex, hall⟩ := (resolveConfig_trace e.ce e.appName "APP" cfg0 []).1 c tr hres
  have htr : Ev.serverShutdownCall ∉ tr := by
    rw [hex, List.nil_append]
    intro hmem
    exact absurd (hall _ hmem) (by simp [Ev.isCfgEv])
  constructor
  · intro hr
    rw [runnerRun_run_ok e cfg0 c tr a hres hf hr]
    refine ⟨tr ++ [Ev.armSignal] ++ [Ev.serverStartLaunched] ++ [Ev.appRunCall],
      (if e.shutdownFails then [Ev.serverShutdownFailed] else []), ?_, ?_, ?_, ?_⟩
    · rw [hsrv]
      cases e.shutdownFails <;> simp
    · simp [htr]
    · cases e.shutdownFails <;> simp
    · simp
  · intro msg hr
    rw [runnerRun_run_error e cfg0 c tr a msg hres hf hr]
    refine ⟨rfl, ?_⟩
    intro hmem
    simp only [List.mem_append, List.mem_singleton] at hmem
    rcases hmem with (((hmem | hmem) | hmem) | hmem) | hmem
    · exact htr hmem
    · simp at hmem
    · rw [hsrv] at hmem
      simp at hmem
    · simp at hmem
    · simp at hmem

theorem shutdownExactlyOnceOnSuccess_witness :
    (runnerRun eC1 []).1 = 1 ∧
    Ev.serverShutdownCall ∉ (runnerRun eC1 []).2 :=
  (shutdownExactlyOnceOnSuccess eC1 [] [] [] () rfl rfl rfl).2 "boom" rfl

theorem resolveConfig_envLoad_congr {CT : Type} (files : String → FileLoad CT)
    (acp : String) (f g : String → EnvLoad CT) (nm pfx : String)
    (cfg : CT) (tr : List Ev) (hfg : f pfx = g pfx) :
    resolveConfig ⟨files, acp, f⟩ nm pfx cfg tr =
      resolveConfig ⟨files, acp, g⟩ nm pfx cfg tr := by
  simp only [resolveConfig]
  cases h1 : loadConvFiles files (convPaths nm) cfg tr with
  | error t => rfl
  | ok p1 =>
    obtain ⟨c1, t1⟩ := p1
    cases h2 : loadExplicit files acp c1 t1 with
    | error t => simp only [h2]
    | ok p2 =>
      obtain ⟨c2, t2⟩ := p2
      simp only [h2, loadEnvStep, hfg]

/-- Claim C2 counterexample: the env loader succeeds for the prefix
derived from the app name `my-app` with separators normalized (`my_app`),
yet variant A's run fails at the env-overlay step — the overlay consults
the fixed prefix `"APP"`, not a prefix derived from the app name. -/
theorem envPrefixNotDerived_cex :
    eC2.ce.envLoad (appEnvCfgName "my-app") = EnvLoad.ok id ∧
    apprunRun eC2 [] = (1, [Ev.setLocalUTC, Ev.cfgEnvLoadFailed]) :=
  ⟨rfl, rfl⟩

/-- Claim C2 (amended): variants A and B query the env loader with the
fixed prefix `"APP"` (the run's outcome depends on the loader only at
`"APP"`), and only variant C derives the prefix from the app name with
`-` and `.` normalized to underscores; in every variant the env overlay
is applied last, strictly after all file sources. -/
theorem envOverlayFixedPrefixAppliedLast {CT AT CT' AT' : Type}
    (dbg na ne va ve : String) (fl : String → FileLoad CT) (acp : String)
    (f g : String → EnvLoad CT)
    (fct : AConfig CT → Except String AT) (ar : AT → Option String) (cfg0 : CT)
    (dbg' nm' : String) (fl' : String → FileLoad CT') (acp' : String)
    (f' g' : String → EnvLoad CT')
    (fct' : CT' → AT') (ar' : AT' → Option String) (cfg0' : CT')
    (ce2 : CfgEnv CT) (nm2 pfx2 : String) (cfg2 : CT) (tr2 : List Ev)
    (hfg : f "APP" = g "APP")
    (hfg' : f' (appEnvCfgName nm') = g' (appEnvCfgName nm')) :
    apprunRun ⟨dbg, na, ne, va, ve, ⟨fl, acp, f⟩, fct, ar⟩ cfg0 =
      apprunRun ⟨dbg, na, ne, va, ve, ⟨fl, acp, g⟩, fct, ar⟩ cfg0 ∧
    apprun2Run ⟨dbg', nm', ⟨fl', acp', f'⟩, fct', ar'⟩ cfg0' =
      apprun2Run ⟨dbg', nm', ⟨fl', acp', g'⟩, fct', ar'⟩ cfg0' ∧
    appEnvCfgName "my-app.v2" = "my_app_v2" ∧
    resolveConfig ce2 nm2 pfx2 cfg2 tr2 =
      (match resolveFiles ce2 nm2 cfg2 tr2 with
       | .error t => Except.error t
       | .ok (cm, tm) => loadEnvStep ce2.envLoad pfx2 cm tm) := by
  refine ⟨?_, ?_, rfl, ?_⟩
  · simp only [apprunRun, AEnv.name, AEnv.ver]
    rw [resolveConfig_envLoad_congr fl acp f g (if na = "" then ne else na)
      "APP" cfg0 [.setLocalUTC] hfg]
  · simp only [apprun2Run]
    cases h1 : loadExplicit fl' acp' cfg0' [.setLocalUTC] with
    | error t => rfl
    | ok p1 =>
      obtain ⟨c1, t1⟩ := p1
      simp only [loadEnvStep, hfg']
  · simp only [resolveConfig, resolveFiles]
    cases h1 : loadConvFiles ce2.files (convPaths nm2) cfg2 tr2 with
    | error t => rfl
    | ok p1 =>
      obtain ⟨c1, t1⟩ := p1
      cases h2 : loadExplicit ce2.files ce2.appConfigPath c1 t1 with
      | error t => rfl
      | ok p2 =>
        obtain ⟨c2, t2⟩ := p2
        rfl

theorem envOverlayFixedPrefixAppliedLast_witness :
    apprunRun ⟨"", "my-app", "", "", "", ⟨fun _ => .notExist, "", fEnvErrAll⟩,
        fun _ => Except.ok (), fun _ => none⟩ ([] : Cfg) =
      apprunRun ⟨"", "my-app", "", "", "", ⟨fun _ => .notExist, "", gEnvErrAPP⟩,
        fun _ => Except.ok (), fun _ => none⟩ ([] : Cfg) ∧
    appEnvCfgName "my-app.v2" = "my_app_v2" := by
  have h := @envOverlayFixedPrefixAppliedLast Cfg Unit Cfg Unit
    "" "my-app" "" "" "" (fun _ => .notExist) "" fEnvErrAll gEnvErrAPP
    (fun _ => Except.ok ()) (fun _ => none) []
    "" "x" (fun _ => .notExist) "" (fun _ => .ok id) (fun _ => .ok id)
    (fun _ => ()) (fun _ => none) []
    ⟨fun _ => .notExist, "", fun _ => .ok id⟩ "x" "APP" [] []
    rfl rfl
  exact ⟨h.1, h.2.2.1⟩

theorem sublist_arm_run (tr X Y : List Ev) :
    List.Sublist [Ev.armSignal, Ev.appRunCall]
      (tr ++ [Ev.armSignal] ++ X ++ [Ev.appRunCall] ++ Y) := by
  have h1 : List.Sublist [Ev.appRunCall] ([Ev.appRunCall] ++ Y) :=
    List.sublist_append_left _ _
  have h2 := (List.nil_sublist X).append h1
  have h3 := h2.cons₂ Ev.armSignal
  have h4 := (List.nil_sublist tr).append h3
  simpa [List.append_assoc] using h4

/-- Claim C9: in both variants `signal.Notify` (arming) occurs strictly
before the run-method invocation in the main-path trace; in the small-step
model of the listener, cancellation is monotone (never undone), a
cancelling step coincides with the listener's one-shot receive (so
cancellation fires at most once), and from any reachable state with a
signal pending after arming, the context is either already cancelled or
the listener's next step cancels it — so the run method observes the
cancellation. -/
theorem signalArmedBeforeRunCancelOnce {CT AT CT' AT' : Type}
    (e : BEnv CT AT) (cfg0 : CT) (e1 : AEnv CT' AT') (cfg1 : CT')
    (s s' : SigState) (hreach : SigReach s) (hstep : SigStep s s') :
    (Ev.appRunCall ∈ (runnerRun e cfg0).2 →
      List.Sublist [Ev.armSignal, Ev.appRunCall] (runnerRun e cfg0).2) ∧
    (Ev.appRunCall ∈ (apprunRun e1 cfg1).2 →
      List.Sublist [Ev.armSignal, Ev.appRunCall] (apprunRun e1 cfg1).2) ∧
    (s.cancelled = true → s'.cancelled = true) ∧
    (s.cancelled = false → s'.cancelled = true →
      s.listenerFired = false ∧ s'.listenerFired = true) ∧
    (s.listenerFired = true → s'.listenerFired = true) ∧
    (s.sigPending = true →
      s.cancelled = true ∨ ∃ s'', SigStep s s'' ∧ s''.cancelled = true) := by
  have hB : Ev.appRunCall ∈ (runnerRun e cfg0).2 →
      List.Sublist [Ev.armSignal, Ev.appRunCall] (runnerRun e cfg0).2 := by
    intro hmem
    cases hres : resolveConfig e.ce e.appName "APP" cfg0 [] with
    | error tr =>
      rw [runnerRun_resolve_error e cfg0 tr hres] at hmem
      obtain ⟨ex, hex, hall⟩ := (resolveConfig_trace e.ce e.appName "APP" cfg0 []).2 tr hres
      rw [hex, List.nil_append] at hmem
      exact absurd (hall _ hmem) (by simp [Ev.isCfgEv])
    | ok p =>
      obtain ⟨c, tr⟩ := p
      obtain ⟨ex, hex, hall⟩ := (resolveConfig_trace e.ce e.appName "APP" cfg0 []).1 c tr hres
      cases hf : e.fct c with
      | error m =>
        rw [runnerRun_factory_error e cfg0 c tr m hres hf] at hmem
        simp only [List.mem_append, List.mem_singleton] at hmem
        rcases hmem with (hmem | hmem) | hmem
        · rw [hex, List.nil_append] at hmem
          exact absurd (hall _ hmem) (by simp [Ev.isCfgEv])
        · simp at hmem
        · simp at hmem
      | ok a =>
        cases hr : e.appRun a with
        | some m =>
          rw [runnerRun_run_error e cfg0 c tr a m hres hf hr]
          exact sublist_arm_run tr _ _
        | none =>
          rw [runnerRun_run_ok e cfg0 c tr a hres hf hr]
          exact sublist_arm_run tr _ _
  have hA : Ev.appRunCall ∈ (apprunRun e1 cfg1).2 →
      List.Sublist [Ev.armSignal, Ev.appRunCall] (apprunRun e1 cfg1).2 := by
    intro hmem
    cases hres : resolveConfig e1.ce e1.name "APP" cfg1 [.setLocalUTC] with
    | error tr =>
      rw [apprunRun_resolve_error e1 cfg1 tr hres] at hmem
      obtain ⟨ex, hex, hall⟩ :=
        (resolveConfig_trace e1.ce e1.name "APP" cfg1 [.setLocalUTC]).2 tr hres
      rw [hex] at hmem
      rcases List.mem_append.mp hmem with hmem | hmem
      · simp at hmem
      · exact absurd (hall _ hmem) (by simp [Ev.isCfgEv])
    | ok p =>
      obtain ⟨c, tr⟩ := p
      obtain ⟨ex, hex, hall⟩ :=
        (resolveConfig_trace e1.ce e1.name "APP" cfg1 [.setLocalUTC]).1 c tr hres
      cases hf : e1.fct (AConfig.mk e1.name e1.ver (debugLevelOf e1.appDebug) c) with
      | error m =>
        rw [apprunRun_factory_error e1 cfg1 c tr m hres hf] at hmem
        simp only [List.mem_append, List.mem_singleton] at hmem
        rcases hmem with (hmem | hmem) | hmem
        · rw [hex] at hmem
          rcases List.mem_append.mp hmem with hmem | hmem
          · simp at hmem
          · exact absurd (hall _ hmem) (by simp [Ev.isCfgEv])
        · simp at hmem
        · simp at hmem
      | ok a =>
        cases hr : e1.appRun a with
        | some m =>
          rw [apprunRun_run_error e1 cfg1 c tr a m hres hf hr]
          simpa using sublist_arm_run tr [] [Ev.appRunFailed]
        | none =>
          rw [apprunRun_run_ok e1 cfg1 c tr a hres hf hr]
          simpa using sublist_arm_run tr [] []
  have hmono : s.cancelled = true → s'.cancelled = true := by
    cases hstep with
    | arm h1 => intro hc; exact hc
    | invokeRun h1 => intro hc; exact hc
    | finishRun h1 => intro hc; exact hc
    | signalArrive h1 h2 => intro hc; exact hc
    | listenerRecv h1 h2 => intro hc; rfl
  have honce : s.cancelled = false → s'.cancelled = true →
      s.listenerFired = false ∧ s'.listenerFired = true := by
    cases hstep with
    | arm h1 => intro h0 h1'; exact absurd (h0.symm.trans h1') (by simp)
    | invokeRun h1 => intro h0 h1'; exact absurd (h0.symm.trans h1') (by simp)
    | finishRun h1 => intro h0 h1'; exact absurd (h0.symm.trans h1') (by simp)
    | signalArrive h1 h2 => intro h0 h1'; exact absurd (h0.symm.trans h1') (by simp)
    | listenerRecv h1 h2 => intro h0 h1'; exact ⟨h2, rfl⟩
  have hfiredmono : s.listenerFired = true → s'.listenerFired = true := by
    cases hstep with
    | arm h1 => intro hf; exact hf
    | invokeRun h1 => intro hf; exact hf
    | finishRun h1 => intro hf; exact hf
    | signalArrive h1 h2 => intro hf; exact hf
    | listenerRecv h1 h2 => intro hf; rfl
  have hprog : s.sigPending = true →
      s.cancelled = true ∨ ∃ s'', SigStep s s'' ∧ s''.cancelled = true := by
    intro hp
    cases hc : s.cancelled with
    | true => exact Or.inl rfl
    | false =>
      have hnf : s.listenerFired = false := by
        cases hlf : s.listenerFired with
        | false => rfl
        | true => exact absurd (sigReach_fired_cancelled hreach hlf) (by simp [hc])
      exact Or.inr ⟨_, SigStep.listenerRecv s hp hnf, rfl⟩
  exact ⟨hB, hA, hmono, honce, hfiredmono, hprog⟩

theorem signalArmedBeforeRunCancelOnce_witness :
    List.Sublist [Ev.armSignal, Ev.appRunCall] (runnerRun eC9 []).2 ∧
    List.Sublist [Ev.armSignal, Ev.appRunCall] (apprunRun eC9a []).2 :=
  ⟨(signalArmedBeforeRunCancelOnce eC9 [] eC9a [] SigState.init
      { SigState.init with pc := .armed } Relation.ReflTransGen.refl
      (SigStep.arm SigState.init rfl)).1 (by decide),
   (signalArmedBeforeRunCancelOnce eC9 [] eC9a [] SigState.init
      { SigState.init with pc := .armed } Relation.ReflTransGen.refl
      (SigStep.arm SigState.init rfl)).2.1 (by decide)⟩

theorem convFileMissingSkippedOtherFatal_witness :
    loadConvFiles (fun _ => (FileLoad.notExist : FileLoad Cfg)) ["x.yaml"] [] [] =
      loadConvFiles (fun _ => (FileLoad.notExist : FileLoad Cfg)) [] [] [] ∧
    (apprunRun eC5 []).1 = 1 ∧
    (apprunRun eC5 []).2.getLast? = some (.cfgFileLoadFailed "config.yaml") :=
  convFileMissingSkippedOtherFatal eC5 [] (fun _ => .notExist) "x.yaml" [] [] []
    [] "config.yaml" ["config.json", "demo.yaml", "demo.json"]
    rfl rfl (by simp) rfl

theorem explicitPathMustExist_witness :
    (apprunRun eC6 []).1 = 1 ∧
    (apprunRun eC6 []).2.getLast? = some (.cfgFileLoadFailed "explicit.yaml") :=
  explicitPathMustExist eC6 [] (by decide) rfl
    (fun q hq h => FileLoad.noConfusion h)

theorem factoryErrorNoServerStart_witness :
    (runnerRun eC7 []).1 = 1 ∧
    Ev.serverStartLaunched ∉ (runnerRun eC7 []).2 :=
  factoryErrorNoServerStart eC7 [] [] [] "boom" rfl rfl

end GoAppRun
